import Mathlib

/-!
Shallow embedding of the client-side tabular data engine of the
React starter template (src/components/file-upload.tsx and
src/components/data-table.tsx).

Modelling conventions:
* JavaScript cell values (`string | number | null | undefined`) become the
  inductive `Value`; numbers are modelled as `Int` (no claim depends on
  fractional or NaN behaviour).
* A JavaScript row object becomes `RowObj`: an allocation identifier `rid`
  (object identity: every evaluation of an object literal allocates a fresh
  object, so functions that build new row objects take a counter `ctr` and
  give the new objects identifiers `ctr`, `ctr+1`, ...) together with its
  fields, an insertion-ordered association list, as JavaScript string-keyed
  objects are.  `===` on two row objects is identity of `rid`.
* JavaScript string primitives used by the code (`split` on a one-character
  separator, `trim`, `toLowerCase`, `includes`, `endsWith`) are defined here
  over `List Char` by structural recursion, with the same semantics
  (ASCII case folding and whitespace suffice for everything modelled).
-/

/-- JS `String.prototype.split` with a one-character separator, over the
character list: never returns an empty list; `"".split(sep) = [""]`. -/
def jsSplitList (sep : Char) : List Char → List (List Char)
  | [] => [[]]
  | c :: cs =>
    match jsSplitList sep cs with
    | [] => [[]]
    | g :: gs => if c = sep then [] :: g :: gs else (c :: g) :: gs

/-- JS `s.split(sep)` for a one-character separator. -/
def jsSplit (s : String) (sep : Char) : List String :=
  (jsSplitList sep s.toList).map (fun l => String.mk l)

/-- Whitespace characters relevant to the inputs modelled (JS `trim` also
strips other Unicode whitespace; the code only meets these). -/
def isJsWhitespace (c : Char) : Bool :=
  c = ' ' || c = '\t' || c = '\n' || c = '\r'

/-- JS `s.trim()`. -/
def jsTrim (s : String) : String :=
  String.mk (((s.toList.dropWhile isJsWhitespace).reverse.dropWhile isJsWhitespace).reverse)

/-- ASCII lowering of one character (JS `toLowerCase` restricted to ASCII,
which covers every string the embedding reasons about). -/
def jsLowerChar (c : Char) : Char :=
  if 'A' ≤ c ∧ c ≤ 'Z' then Char.ofNat (c.toNat + 32) else c

/-- JS `s.toLowerCase()`. -/
def jsToLower (s : String) : String :=
  String.mk (s.toList.map jsLowerChar)

/-- Helper for `jsIncludes`: `sub` occurs as a contiguous run of `l`. -/
def jsIncludesList (sub : List Char) : List Char → Bool
  | [] => sub.isEmpty
  | c :: cs => sub.isPrefixOf (c :: cs) || jsIncludesList sub cs

/-- JS `s.includes(sub)`: substring containment. -/
def jsIncludes (s sub : String) : Bool :=
  jsIncludesList sub.toList s.toList

/-- JS `s.endsWith(sub)`. -/
def jsEndsWith (s sub : String) : Bool :=
  sub.toList.isSuffixOf s.toList

/-- Lexicographic comparison of character lists by code point: JS `<` on
strings (code-unit order; identical on the code points occurring here). -/
def jsStrLtList : List Char → List Char → Bool
  | [], [] => false
  | [], _ :: _ => true
  | _ :: _, [] => false
  | a :: as, b :: bs =>
    if a.toNat < b.toNat then true
    else if b.toNat < a.toNat then false
    else jsStrLtList as bs

/-- JS `a < b` on strings. -/
def jsStrLt (a b : String) : Bool :=
  jsStrLtList a.toList b.toList

/-- A JavaScript cell value: `string | number | null | undefined`. -/
inductive Value where
  | str (s : String)
  | num (n : Int)
  | null
  | undefV
  deriving DecidableEq, Repr

/-- JS `String(value)` for the values a cell can hold. -/
def valueToString : Value → String
  | .str s => s
  | .num n => toString n
  | .null => "null"
  | .undefV => "undefined"

/-- A row object: object identity `rid` plus insertion-ordered fields.
Two JavaScript row objects are `===` exactly when their `rid`s coincide. -/
structure RowObj where
  rid : Nat
  fields : List (String × Value)
  deriving DecidableEq, Repr

/-- The canonical table model (`TableData` in file-upload-editor). -/
structure TableData where
  headers : List String
  rows : List RowObj
  deriving DecidableEq, Repr

/-- JS property assignment `obj[k] = v` on a string-keyed object:
an existing key is updated in place, a new key is appended. -/
def objSet (r : List (String × Value)) (k : String) (v : Value) : List (String × Value) :=
  if r.any (fun kv => kv.1 == k) then
    r.map (fun kv => if kv.1 == k then (k, v) else kv)
  else r ++ [(k, v)]

/-- JS property read `obj[k]`: `undefined` when the key is absent. -/
def getVal (fields : List (String × Value)) (k : String) : Value :=
  match fields.find? (fun kv => kv.1 == k) with
  | some kv => kv.2
  | none => .undefV

/-- The spec's data-model invariant: every row's key set is a subset of
`headers`. -/
def TableInv (t : TableData) : Prop :=
  ∀ r ∈ t.rows, ∀ k ∈ r.fields.map Prod.fst, k ∈ t.headers

instance (t : TableData) : Decidable (TableInv t) := by
  unfold TableInv; infer_instance

/-! ## Parser, CSV mode (`parseCSV` in file-upload.tsx) -/

/-- One CSV data row: `headers.forEach((header, index) =>
row[header] = values[index] || "")`. -/
def buildCSVRow (headers values : List String) : List (String × Value) :=
  (headers.enum).foldl (fun row p => objSet row p.2 (.str (values.getD p.1 ""))) []

/-- `parseCSV` from file-upload.tsx.  `text.trim().split("\n")` never yields
an empty array in JavaScript (split of any string has at least one element),
mirrored exactly by `jsSplit`; row objects are allocated fresh, with
identifiers numbered from 0 in order. -/
def parseCSV (text : String) : Except String TableData :=
  let lines := jsSplit (jsTrim text) '\n'
  if lines.length = 0 then .error "Empty file"
  else
    let headers := (jsSplit (lines.getD 0 "") ',').map jsTrim
    let rows := (lines.drop 1).enum.map (fun p =>
      RowObj.mk p.1 (buildCSVRow headers ((jsSplit p.2 ',').map jsTrim)))
    .ok ⟨headers, rows⟩

/-! ## Parser, spreadsheet mode (`parseExcel` in file-upload.tsx)

The xlsx workbook is abstracted to its first sheet: the bounding range
returned by `decode_range(sheet["!ref"])` and, per cell, the display string
the code computes as `cell ? cell.w || cell.v?.toString() || "" : ""`
(empty string for an absent cell).  The header-search truthiness test
`cell && (cell.w || cell.v)` is modelled as that display string being
nonempty, which is exact for the string-valued cells reasoned about here. -/

structure SheetRange where
  sr : Nat
  er : Nat
  sc : Nat
  ec : Nat

/-- `parseExcel` from file-upload.tsx.  Note the source indexes
`headers[col]` with the absolute column number `col` (which starts at
`range.s.c`), while `headers` was filled starting from index 0; an
out-of-bounds read gives `undefined`, and `rowData[undefined]` stores under
the string key `"undefined"` — modelled by `List.getD` with default
`"undefined"`. -/
def parseExcel (rng : SheetRange) (cell : Nat → Nat → String) : Except String TableData :=
  let cols := List.range' rng.sc (rng.ec + 1 - rng.sc)
  let rowIdxs := List.range' rng.sr (rng.er + 1 - rng.sr)
  let hrOpt := rowIdxs.find? (fun r => cols.any (fun c => cell r c ≠ ""))
  let headerRowIndex := hrOpt.getD 0
  let dataStartRowIndex := match hrOpt with | some r => r + 1 | none => 0
  let headers := cols.map (fun c =>
    let hv := cell headerRowIndex c
    if hv = "" then "Column " ++ toString (c + 1) else hv)
  let dataIdxs := List.range' dataStartRowIndex (rng.er + 1 - dataStartRowIndex)
  let fieldRows := dataIdxs.filterMap (fun r =>
    let rowData := cols.foldl (fun acc c =>
      objSet acc (headers.getD c "undefined") (Value.str (cell r c))) []
    if cols.any (fun c => cell r c ≠ "") then some rowData else none)
  if headers.isEmpty then .error "No data found in Excel file"
  else .ok ⟨headers, fieldRows.enum.map (fun p => ⟨p.1, p.2⟩)⟩

/-! ## Format dispatch (`handleFile` in file-upload.tsx) -/

/-- Which parse path `handleFile` takes for a file with the given name and
MIME type (`invalid` and `unsupported` are its two distinct error throws). -/
inductive ParsePath where
  | excel
  | csv
  | unsupported
  | invalid
  deriving DecidableEq, Repr

/-- The branch structure of `handleFile`: JS `!file.type` is the emptiness
test on the MIME string. -/
def handleFileDispatch (name ty : String) : ParsePath :=
  if ty = "" ∧ jsEndsWith name ".xlsx" = false ∧ jsEndsWith name ".xls" = false
      ∧ jsEndsWith name ".csv" = false then .invalid
  else if jsEndsWith name ".xlsx" = true ∨ jsEndsWith name ".xls" = true
      ∨ jsIncludes ty "spreadsheet" = true then .excel
  else if jsEndsWith name ".csv" = true ∨ ty = "text/csv" then .csv
  else .unsupported

/-! ## Query Engine (`getProcessedRows` in data-table.tsx) -/

inductive Direction where
  | asc
  | desc
  deriving DecidableEq, Repr

/-- `value === other` on cell values (JS strict equality; `null` and
`undefined` are distinct, strings and numbers compare by value). -/
def isNullish : Value → Bool
  | .null => true
  | .undefV => true
  | _ => false

/-- Classifier: the value is a JS number. -/
def isNumV : Value → Bool
  | .num _ => true
  | _ => false

/-- Classifier: the value is a JS string. -/
def isStrV : Value → Bool
  | .str _ => true
  | _ => false

/-- The comparator passed to `processedRows.sort` in `getProcessedRows`. -/
def cmpValues (dir : Direction) (a b : Value) : Int :=
  if a = b then 0
  else if isNullish a then 1
  else if isNullish b then -1
  else
    match a, b with
    | .num x, .num y => if dir = .asc then x - y else y - x
    | _, _ =>
      let aString := jsToLower (valueToString a)
      let bString := jsToLower (valueToString b)
      if jsStrLt aString bString then (if dir = .asc then -1 else 1)
      else if jsStrLt bString aString then (if dir = .asc then 1 else -1)
      else 0

/-- The row comparator: `a[sortConfig.key]` vs `b[sortConfig.key]`. -/
def rowCompare (dir : Direction) (key : String) (a b : RowObj) : Int :=
  cmpValues dir (getVal a.fields key) (getVal b.fields key)

/-- Stable insertion into an already-processed prefix: the new element goes
after every element the comparator does not place strictly after it.
Folding this over the list realizes `Array.prototype.sort`, which is
required to be stable; on a consistent comparator every stable sort agrees,
so this is a faithful model of the sort the code performs. -/
def insertCmp (c : RowObj → RowObj → Int) (x : RowObj) : List RowObj → List RowObj
  | [] => [x]
  | y :: ys => if c y x ≤ 0 then y :: insertCmp c x ys else x :: y :: ys

/-- The stable sort `processedRows.sort(comparator)`. -/
def jsSortBy (c : RowObj → RowObj → Int) (l : List RowObj) : List RowObj :=
  l.foldl (fun acc x => insertCmp c x acc) []

/-- The filter predicate: `Object.values(row).some((value) =>
String(value).toLowerCase().includes(lowerTerm))`. -/
def rowMatchesSearch (lowerTerm : String) (r : RowObj) : Bool :=
  r.fields.any (fun kv => jsIncludes (jsToLower (valueToString kv.2)) lowerTerm)

/-- `getProcessedRows` from data-table.tsx: filter (when the search term is
truthy, i.e. nonempty), then sort (when a sort config is present). -/
def getProcessedRows (searchTerm : String) (sortConfig : Option (String × Direction))
    (rows : List RowObj) : List RowObj :=
  let processedRows := rows
  let processedRows :=
    if searchTerm ≠ "" then processedRows.filter (rowMatchesSearch (jsToLower searchTerm))
    else processedRows
  match sortConfig with
  | some cfg => jsSortBy (rowCompare cfg.2 cfg.1) processedRows
  | none => processedRows

/-! ## Pagination (`getPaginatedRows`, `hasGap`, row numbering) -/

def RECORDS_PER_PAGE : Nat := 30

/-- `Math.ceil((totalRows - 5) / RECORDS_PER_PAGE)` then
`Math.min(currentPage, maxPage)`, from `getPaginatedRows`. -/
def pageClamped (totalRows currentPage : Nat) : Nat :=
  min currentPage ((totalRows - 5 + RECORDS_PER_PAGE - 1) / RECORDS_PER_PAGE)

/-- `startIdx = (page - 1) * RECORDS_PER_PAGE`. -/
def bodyStart (totalRows currentPage : Nat) : Nat :=
  (pageClamped totalRows currentPage - 1) * RECORDS_PER_PAGE

/-- `endIdx = Math.min(startIdx + RECORDS_PER_PAGE, totalRows - 5)`. -/
def bodyEnd (totalRows currentPage : Nat) : Nat :=
  min (bodyStart totalRows currentPage + RECORDS_PER_PAGE) (totalRows - 5)

structure PaginationResult where
  rows : List RowObj
  displayIndicesStart : Nat
  deriving DecidableEq, Repr

/-- `getPaginatedRows` from data-table.tsx: below the threshold everything
is returned; otherwise the clamped page's slice followed by
`processedRows.slice(-5)` (`[...mainPart, lastPart].flat()`). -/
def getPaginatedRows (processedRows : List RowObj) (currentPage : Nat) : PaginationResult :=
  let totalRows := processedRows.length
  if totalRows ≤ RECORDS_PER_PAGE + 5 then ⟨processedRows, 0⟩
  else
    let startIdx := bodyStart totalRows currentPage
    let endIdx := bodyEnd totalRows currentPage
    ⟨((processedRows.drop startIdx).take (endIdx - startIdx))
        ++ processedRows.drop (totalRows - 5), startIdx⟩

/-- `totalPages = Math.ceil(Math.max(totalFilteredRows - 5, 0) /
RECORDS_PER_PAGE) || 1` (data-table.tsx line 180). -/
def totalPages (totalFilteredRows : Nat) : Nat :=
  let tp := (max (totalFilteredRows - 5) 0 + RECORDS_PER_PAGE - 1) / RECORDS_PER_PAGE
  if tp = 0 then 1 else tp

/-- `hasGap = totalFilteredRows > RECORDS_PER_PAGE + 5 && currentPage <
maxPage` (data-table.tsx line 184). -/
def hasGap (totalFilteredRows currentPage : Nat) : Bool :=
  decide (RECORDS_PER_PAGE + 5 < totalFilteredRows)
    && decide (currentPage < totalPages totalFilteredRows)

/-- The displayed row number for the row rendered at position `index` of the
paginated list (data-table.tsx lines 326-331). -/
def displayIndex (totalFilteredRows currentPage displayIndicesStart index : Nat) : Nat :=
  if hasGap totalFilteredRows currentPage && decide (RECORDS_PER_PAGE ≤ index)
  then totalFilteredRows - 5 + (index - RECORDS_PER_PAGE) + 1
  else displayIndicesStart + index + 1

/-- Modelled from the spec (section 4.3 step 3), for comparison against
`getPaginatedRows`: the page body `rows[(page-1)*pageSize :
min(page*pageSize, total-5)]` for the requested page clamped into
`[1, maxPage]` with `maxPage = ceil((total-5)/pageSize)`, followed by the
absolute last 5 rows; everything when `total ≤ pageSize + 5`. -/
def paginateSpec (rows : List RowObj) (reqPage : Nat) : List RowObj :=
  let total := rows.length
  if total ≤ RECORDS_PER_PAGE + 5 then rows
  else
    let maxPage := (total - 5 + RECORDS_PER_PAGE - 1) / RECORDS_PER_PAGE
    let page := max 1 (min reqPage maxPage)
    let s := (page - 1) * RECORDS_PER_PAGE
    let e := min (page * RECORDS_PER_PAGE) (total - 5)
    ((rows.drop s).take (e - s)) ++ rows.drop (total - 5)

/-! ## Table Model mutation operations (data-table.tsx) -/

/-- `handleRemoveColumn`: headers are filtered; every row is rebuilt by rest
destructuring `const { [columnName]: _, ...rest } = row`, which allocates a
fresh object for every row — the new rows get identifiers `ctr`, `ctr+1`,
... (the caller picks `ctr` larger than any live identifier). -/
def handleRemoveColumn (ctr : Nat) (columnName : String) (t : TableData) : TableData :=
  ⟨t.headers.filter (fun h => h ≠ columnName),
   t.rows.enum.map (fun p => ⟨ctr + p.1, p.2.fields.filter (fun kv => kv.1 ≠ columnName)⟩)⟩

/-- `handleRemoveRowByRef`: `data.rows.filter(r => r !== rowRef)` — strict
object inequality, i.e. identity comparison. -/
def handleRemoveRowByRef (rowRef : RowObj) (t : TableData) : TableData :=
  ⟨t.headers, t.rows.filter (fun r => r.rid ≠ rowRef.rid)⟩

/-- The outcome of `handleRenameHeader`: table updated via `onDataUpdate`,
edit silently cancelled (empty/whitespace name: only `setEditingHeader(null)`
runs), or the duplicate-name `alert` shown with no update. -/
inductive RenameOutcome where
  | updated (t : TableData)
  | cancelled
  | duplicateAlert
  deriving DecidableEq, Repr

/-- Whether an outcome surfaces an error message to the user (only the
duplicate branch calls `alert`). -/
def reportsError : RenameOutcome → Bool
  | .duplicateAlert => true
  | _ => false

/-- The row rebuild inside `handleRenameHeader`:
`Object.entries(row).forEach(([key, value]) =>
newRow[key === oldName ? newName : key] = value)`. -/
def renameFields (oldName newName : String) (fs : List (String × Value)) :
    List (String × Value) :=
  fs.foldl (fun acc kv => objSet acc (if kv.1 = oldName then newName else kv.1) kv.2) []

/-- `handleRenameHeader` from data-table.tsx; new row objects are fresh
allocations, numbered from `ctr`. -/
def handleRenameHeader (ctr : Nat) (oldName newName : String) (t : TableData) :
    RenameOutcome :=
  if jsTrim newName = "" then .cancelled
  else if newName ≠ oldName ∧ t.headers.contains newName then .duplicateAlert
  else .updated
    ⟨t.headers.map (fun h => if h = oldName then newName else h),
     t.rows.enum.map (fun p => ⟨ctr + p.1, renameFields oldName newName p.2.fields⟩)⟩

/-! ## Formatter (`formatCellValue` in data-table.tsx) -/

/-- Header heuristic: name contains case-insensitive "date" or "time". -/
def isDateColumn (header : String) : Bool :=
  jsIncludes (jsToLower header) "date" || jsIncludes (jsToLower header) "time"

def monthNames : List String :=
  ["Jan", "Feb", "Mar", "Apr", "May", "Jun", "Jul", "Aug", "Sep", "Oct", "Nov", "Dec"]

/-- `monthNames.some((month) => value.includes(month))`. -/
def hasMonthName (s : String) : Bool :=
  monthNames.any (fun m => jsIncludes s m)

/-- A successfully parsed `Date`, as far as the formatter consumes it. -/
structure JsDate where
  year : Int
  month : Fin 12
  day : Nat
  deriving DecidableEq, Repr

/-- `dateObj.toLocaleDateString("en-US", { year: "numeric", month: "short",
day: "numeric" })`. -/
def toLocaleDateStringEnUS (d : JsDate) : String :=
  monthNames.getD d.month.1 "" ++ " " ++ toString d.day ++ ", " ++ toString d.year

/-- `formatCellValue` from data-table.tsx.  `new Date(value)` is the
browser's implementation-defined date parser, passed in as the oracle
`parseDate`: `none` models an invalid date (`isNaN(dateObj.getTime())`),
in which case control falls through to the default string coercion. -/
def formatCellValue (parseDate : String → Option JsDate) (value : Value)
    (header : String) : String :=
  if value = .null ∨ value = .undefV then ""
  else
    let dateResult : Option String :=
      match value with
      | .str s =>
        if isDateColumn header then
          if hasMonthName s then some s
          else
            match parseDate s with
            | some d => some (toLocaleDateStringEnUS d)
            | none => none
        else none
      | _ => none
    match dateResult with
    | some r => r
    | none =>
      match value with
      | .num n => toString n
      | .str s => s
      | _ => ""

/-! ## Concrete inputs used by witnesses and counterexamples -/

/-- A 40-row table (rows identified 0..39, one numeric column), used to
exercise pagination above the 35-row threshold. -/
def rows40 : List RowObj :=
  (List.range 40).map (fun i => ⟨i, [("a", Value.num (Int.ofNat i))]⟩)

/-- A sheet whose bounding range starts at column B: header row `h1, h2` at
columns 1-2 of row 0, one data row `x, y` at row 1. -/
def sheetColShift : Nat → Nat → String := fun r c =>
  if r = 0 ∧ c = 1 then "h1"
  else if r = 0 ∧ c = 2 then "h2"
  else if r = 1 ∧ c = 1 then "x"
  else if r = 1 ∧ c = 2 then "y"
  else ""

/-- A concrete date-parse oracle: recognises exactly "2024-01-05". -/
def pdWitness : String → Option JsDate := fun s =>
  if s = "2024-01-05" then some ⟨2024, ⟨0, by omega⟩, 5⟩ else none

/-! ## Properties of the stable sort -/

theorem insertCmp_perm (c : RowObj → RowObj → Int) (x : RowObj) (acc : List RowObj) :
    (insertCmp c x acc).Perm (x :: acc) := by
  induction acc with
  | nil => simp [insertCmp]
  | cons y ys ih =>
    simp only [insertCmp]
    by_cases h : c y x ≤ 0
    · rw [if_pos h]
      exact (ih.cons y).trans (List.Perm.swap x y ys)
    · rw [if_neg h]

theorem jsSortBy_aux_perm (c : RowObj → RowObj → Int) :
    ∀ (l acc : List RowObj), (l.foldl (fun a y => insertCmp c y a) acc).Perm (l ++ acc) := by
  intro l
  induction l with
  | nil => intro acc; simp
  | cons x xs ih =>
    intro acc
    simp only [List.foldl_cons, List.cons_append]
    refine (ih (insertCmp c x acc)).trans ?_
    refine (List.Perm.append_left xs (insertCmp_perm c x acc)).trans ?_
    exact List.perm_middle

theorem jsSortBy_perm (c : RowObj → RowObj → Int) (l : List RowObj) :
    (jsSortBy c l).Perm l := by
  simpa using jsSortBy_aux_perm c l []

theorem insertCmp_mem (c : RowObj → RowObj → Int) (x z : RowObj) (acc : List RowObj) :
    z ∈ insertCmp c x acc ↔ z ∈ x :: acc :=
  (insertCmp_perm c x acc).mem_iff

/-- Inserting preserves the "once a row satisfying `N` appears, all later
rows satisfy `N`" shape, provided the comparator sends `N`-rows strictly
after non-`N`-rows. -/
theorem insertCmp_pairwise_mono (c : RowObj → RowObj → Int) (N : RowObj → Bool)
    (h1 : ∀ a b, N a = true → N b = false → 0 < c a b)
    (h2 : ∀ a b, N a = false → N b = true → c a b ≤ 0)
    (x : RowObj) (acc : List RowObj)
    (hacc : acc.Pairwise (fun a b => N a = true → N b = true)) :
    (insertCmp c x acc).Pairwise (fun a b => N a = true → N b = true) := by
  induction acc with
  | nil => simp [insertCmp]
  | cons y ys ih =>
    rw [List.pairwise_cons] at hacc
    simp only [insertCmp]
    by_cases h : c y x ≤ 0
    · rw [if_pos h]
      rw [List.pairwise_cons]
      constructor
      · intro z hz hNy
        rcases List.mem_cons.1 ((insertCmp_mem c x z ys).1 hz) with hz | hz
        · subst hz
          by_cases hNx : N z = true
          · exact hNx
          · exact absurd h (not_le.mpr (h1 y z hNy (Bool.eq_false_iff.mpr hNx)))
        · exact hacc.1 z hz hNy
      · exact ih hacc.2
    · rw [if_neg h]
      rw [List.pairwise_cons]
      refine ⟨?_, List.pairwise_cons.mpr hacc⟩
      intro z hz hNx
      have hNy : N y = true := by
        by_cases hy : N y = true
        · exact hy
        · exact absurd (h2 y x (Bool.eq_false_iff.mpr hy) hNx) h
      rcases List.mem_cons.1 hz with hz' | hz'
      · subst hz'; exact hNy
      · exact hacc.1 z hz' hNy

theorem jsSortBy_pairwise_mono (c : RowObj → RowObj → Int) (N : RowObj → Bool)
    (h1 : ∀ a b, N a = true → N b = false → 0 < c a b)
    (h2 : ∀ a b, N a = false → N b = true → c a b ≤ 0)
    (l : List RowObj) :
    (jsSortBy c l).Pairwise (fun a b => N a = true → N b = true) := by
  suffices h : ∀ (l acc : List RowObj),
      acc.Pairwise (fun a b => N a = true → N b = true) →
      (l.foldl (fun a y => insertCmp c y a) acc).Pairwise (fun a b => N a = true → N b = true) by
    exact h l [] (by simp)
  intro l
  induction l with
  | nil => intro acc hacc; simpa using hacc
  | cons x xs ih =>
    intro acc hacc
    exact ih (insertCmp c x acc) (insertCmp_pairwise_mono c N h1 h2 x acc hacc)

/-- Inserting preserves sortedness w.r.t. the comparator, on rows drawn from
a class `G` on which the comparator is skew-symmetric and transitive. -/
theorem insertCmp_sorted (c : RowObj → RowObj → Int) (G : RowObj → Prop)
    (hskew : ∀ a b, G a → G b → c a b = -(c b a))
    (htrans : ∀ a b d, G a → G b → G d → c a b ≤ 0 → c b d ≤ 0 → c a d ≤ 0)
    (x : RowObj) (hx : G x) (acc : List RowObj) (haccG : ∀ a ∈ acc, G a)
    (hacc : acc.Pairwise (fun a b => c a b ≤ 0)) :
    (insertCmp c x acc).Pairwise (fun a b => c a b ≤ 0) := by
  induction acc with
  | nil => simp [insertCmp]
  | cons y ys ih =>
    rw [List.pairwise_cons] at hacc
    have hyG : G y := haccG y (List.mem_cons_self y ys)
    have hysG : ∀ a ∈ ys, G a := fun a ha => haccG a (List.mem_cons_of_mem y ha)
    simp only [insertCmp]
    by_cases h : c y x ≤ 0
    · rw [if_pos h]
      rw [List.pairwise_cons]
      constructor
      · intro z hz
        rcases List.mem_cons.1 ((insertCmp_mem c x z ys).1 hz) with hz | hz
        · subst hz; exact h
        · exact hacc.1 z hz
      · exact ih hysG hacc.2
    · rw [if_neg h]
      rw [List.pairwise_cons]
      refine ⟨?_, List.pairwise_cons.mpr hacc⟩
      intro z hz
      have hxy : c x y ≤ 0 := by
        have := hskew x y hx hyG
        omega
      rcases List.mem_cons.1 hz with hz' | hz'
      · subst hz'; exact hxy
      · exact htrans x y z hx hyG (hysG z hz') hxy (hacc.1 z hz')

theorem jsSortBy_sorted (c : RowObj → RowObj → Int) (G : RowObj → Prop)
    (hskew : ∀ a b, G a → G b → c a b = -(c b a))
    (htrans : ∀ a b d, G a → G b → G d → c a b ≤ 0 → c b d ≤ 0 → c a d ≤ 0)
    (l : List RowObj) (hG : ∀ a ∈ l, G a) :
    (jsSortBy c l).Pairwise (fun a b => c a b ≤ 0) := by
  suffices h : ∀ (l acc : List RowObj), (∀ a ∈ l, G a) → (∀ a ∈ acc, G a) →
      acc.Pairwise (fun a b => c a b ≤ 0) →
      (l.foldl (fun a y => insertCmp c y a) acc).Pairwise (fun a b => c a b ≤ 0) by
    exact h l [] hG (by simp) (by simp)
  intro l
  induction l with
  | nil => intro acc _ _ hacc; simpa using hacc
  | cons x xs ih =>
    intro acc hlG haccG hacc
    have hxG : G x := hlG x (List.mem_cons_self x xs)
    refine ih (insertCmp c x acc) (fun a ha => hlG a (List.mem_cons_of_mem x ha)) ?_ ?_
    · intro a ha
      rcases List.mem_cons.1 ((insertCmp_mem c x a acc).1 ha) with ha | ha
      · subst ha; exact hxG
      · exact haccG a ha
    · exact insertCmp_sorted c G hskew htrans x hxG acc haccG hacc

/-- A permutation that is pairwise-sorted on both sides by an asymmetric
relation is an equality. -/
theorem eq_of_perm_of_pairwise (R : RowObj → RowObj → Prop) :
    ∀ (l₁ l₂ : List RowObj), l₁.Perm l₂ →
      (∀ a ∈ l₁, ∀ b ∈ l₁, R a b → R b a → False) →
      l₁.Pairwise R → l₂.Pairwise R → l₁ = l₂ := by
  intro l₁
  induction l₁ with
  | nil => intro l₂ hp _ _ _; exact hp.nil_eq
  | cons x t₁ ih =>
    intro l₂ hp hasym h₁ h₂
    match l₂ with
    | [] => exact absurd hp.symm.nil_eq (by simp)
    | y :: t₂ =>
      by_cases hxy : x = y
      · subst hxy
        rw [List.pairwise_cons] at h₁ h₂
        refine congrArg (x :: ·) (ih t₂ hp.cons_inv ?_ h₁.2 h₂.2)
        intro a ha b hb
        exact hasym a (List.mem_cons_of_mem x ha) b (List.mem_cons_of_mem x hb)
      · exfalso
        have hxl₂ : x ∈ y :: t₂ := hp.subset (List.mem_cons_self x t₁)
        have hxt₂ : x ∈ t₂ := by
          rcases List.mem_cons.1 hxl₂ with h | h
          · exact absurd h hxy
          · exact h
        have hyl₁ : y ∈ x :: t₁ := hp.symm.subset (List.mem_cons_self y t₂)
        have hyt₁ : y ∈ t₁ := by
          rcases List.mem_cons.1 hyl₁ with h | h
          · exact absurd h.symm hxy
          · exact h
        rw [List.pairwise_cons] at h₁ h₂
        exact hasym x (List.mem_cons_self x t₁) y (List.mem_cons_of_mem x hyt₁)
          (h₁.1 y hyt₁) (h₂.1 x hxt₂)

/-- On a class `G` where `c'` is the pointwise negation of the
skew-symmetric, transitive comparator `c`, and when no two list elements
compare equal, sorting by `c'` is the reverse of sorting by `c`. -/
theorem jsSortBy_rev (c c' : RowObj → RowObj → Int) (G : RowObj → Prop) (l : List RowObj)
    (hG : ∀ a ∈ l, G a)
    (hskew : ∀ a b, G a → G b → c a b = -(c b a))
    (htrans : ∀ a b d, G a → G b → G d → c a b ≤ 0 → c b d ≤ 0 → c a d ≤ 0)
    (hflip : ∀ a b, G a → G b → c' a b = -(c a b))
    (hdist : l.Pairwise (fun a b => c a b ≠ 0)) :
    jsSortBy c' l = (jsSortBy c l).reverse := by
  have p1 : (jsSortBy c l).Perm l := jsSortBy_perm c l
  have p2 : (jsSortBy c' l).Perm l := jsSortBy_perm c' l
  have hG1 : ∀ a ∈ jsSortBy c l, G a := fun a ha => hG a (p1.subset ha)
  have hG2 : ∀ a ∈ jsSortBy c' l, G a := fun a ha => hG a (p2.subset ha)
  -- symmetric distinctness, transported to both sorted lists
  have hD : l.Pairwise (fun a b => c a b ≠ 0 ∧ c b a ≠ 0) := by
    refine hdist.imp_of_mem ?_
    intro a b ha hb hab
    have := hskew a b (hG a ha) (hG b hb)
    exact ⟨hab, by omega⟩
  have hDsymm : ∀ {x y : RowObj}, (c x y ≠ 0 ∧ c y x ≠ 0) → (c y x ≠ 0 ∧ c x y ≠ 0) :=
    fun h => ⟨h.2, h.1⟩
  have hD1 : (jsSortBy c l).Pairwise (fun a b => c a b ≠ 0 ∧ c b a ≠ 0) :=
    (List.Perm.pairwise_iff hDsymm p1).mpr hD
  have hD2 : (jsSortBy c' l).Pairwise (fun a b => c a b ≠ 0 ∧ c b a ≠ 0) :=
    (List.Perm.pairwise_iff hDsymm p2).mpr hD
  -- strict sortedness of both sides, expressed through c
  have hs1 : (jsSortBy c l).Pairwise (fun a b => c a b ≤ 0) :=
    jsSortBy_sorted c G hskew htrans l hG
  have htrans' : ∀ a b d, G a → G b → G d → c' a b ≤ 0 → c' b d ≤ 0 → c' a d ≤ 0 := by
    intro a b d ha hb hd h1 h2
    rw [hflip a b ha hb] at h1
    rw [hflip b d hb hd] at h2
    rw [hflip a d ha hd]
    have e1 := hskew a b ha hb
    have e2 := hskew b d hb hd
    have e3 := hskew a d ha hd
    have := htrans d b a hd hb ha (by omega) (by omega)
    omega
  have hskew' : ∀ a b, G a → G b → c' a b = -(c' b a) := by
    intro a b ha hb
    rw [hflip a b ha hb, hflip b a hb ha]
    have := hskew a b ha hb
    omega
  have hs2 : (jsSortBy c' l).Pairwise (fun a b => c' a b ≤ 0) :=
    jsSortBy_sorted c' G hskew' htrans' l hG
  -- the common strict relation: R₀ a b := c b a < 0
  have hstrict2 : (jsSortBy c' l).Pairwise (fun a b => c b a < 0) := by
    refine (hs2.and hD2).imp_of_mem ?_
    intro a b ha hb hab
    have hfa := hflip a b (hG2 a ha) (hG2 b hb)
    have hsk := hskew a b (hG2 a ha) (hG2 b hb)
    rcases hab with ⟨hle, hne, _⟩
    omega
  have hstrictrev : ((jsSortBy c l).reverse).Pairwise (fun a b => c b a < 0) := by
    rw [List.pairwise_reverse]
    refine (hs1.and hD1).imp_of_mem ?_
    intro a b _ _ hab
    rcases hab with ⟨hle, hne, _⟩
    omega
  have hperm : (jsSortBy c' l).Perm ((jsSortBy c l).reverse) :=
    (p2.trans p1.symm).trans (List.reverse_perm (jsSortBy c l)).symm
  refine eq_of_perm_of_pairwise (fun a b => c b a < 0) _ _ hperm ?_ hstrict2 hstrictrev
  intro a ha b hb h1 h2
  have hsk := hskew a b (hG2 a ha) (hG2 b hb)
  omega

/-! ## Order facts about the comparator -/

theorem jsStrLtList_irrefl : ∀ l : List Char, jsStrLtList l l = false
  | [] => rfl
  | c :: cs => by
    simp only [jsStrLtList, Nat.lt_irrefl, if_false]
    exact jsStrLtList_irrefl cs

theorem jsStrLtList_asymm : ∀ a b : List Char,
    jsStrLtList a b = true → jsStrLtList b a = false
  | [], [], h => by simp [jsStrLtList] at h
  | [], _ :: _, _ => rfl
  | _ :: _, [], h => by simp [jsStrLtList] at h
  | a :: as, b :: bs, h => by
    simp only [jsStrLtList] at h ⊢
    by_cases e1 : a.toNat < b.toNat
    · have e2 : ¬ b.toNat < a.toNat := by omega
      simp [e1, e2]
    · by_cases e2 : b.toNat < a.toNat
      · simp [e1, e2] at h
      · simp only [e1, e2, if_false]
        exact jsStrLtList_asymm as bs (by simpa [e1, e2] using h)

theorem jsStrLtList_le_trans : ∀ a b c : List Char,
    jsStrLtList b a = false → jsStrLtList c b = false → jsStrLtList c a = false
  | [], _, c, _, _ => by cases c <;> rfl
  | _ :: _, [], _, h1, _ => by simp [jsStrLtList] at h1
  | _ :: _, _ :: _, [], _, h2 => by simp [jsStrLtList] at h2
  | a :: as, b :: bs, c :: cs, h1, h2 => by
    simp only [jsStrLtList] at h1 h2 ⊢
    have e1 : ¬ b.toNat < a.toNat := by
      intro e; simp [e] at h1
    have e2 : ¬ c.toNat < b.toNat := by
      intro e; simp [e] at h2
    by_cases g1 : c.toNat < a.toNat
    · omega
    · by_cases g2 : a.toNat < c.toNat
      · simp [g1, g2]
      · have eab : ¬ a.toNat < b.toNat := by omega
        have ebc : ¬ b.toNat < c.toNat := by omega
        simp only [g1, g2, if_false]
        exact jsStrLtList_le_trans as bs cs
          (by simpa [e1, eab] using h1) (by simpa [e2, ebc] using h2)

theorem jsStrLt_irrefl (s : String) : jsStrLt s s = false :=
  jsStrLtList_irrefl s.toList

theorem jsStrLt_asymm (a b : String) (h : jsStrLt a b = true) : jsStrLt b a = false :=
  jsStrLtList_asymm a.toList b.toList h

theorem jsStrLt_le_trans (a b c : String) (h1 : jsStrLt b a = false)
    (h2 : jsStrLt c b = false) : jsStrLt c a = false :=
  jsStrLtList_le_trans a.toList b.toList c.toList h1 h2

theorem cmpValues_num (dir : Direction) (x y : Int) :
    cmpValues dir (.num x) (.num y) = if dir = .asc then x - y else y - x := by
  by_cases h : x = y
  · subst h
    cases dir <;> simp [cmpValues]
  · have hne : Value.num x ≠ Value.num y := by simpa using h
    simp [cmpValues, hne, isNullish]

theorem cmpValues_str (dir : Direction) (s t : String) :
    cmpValues dir (.str s) (.str t) =
      (if jsStrLt (jsToLower s) (jsToLower t) then (if dir = .asc then -1 else 1)
       else if jsStrLt (jsToLower t) (jsToLower s) then (if dir = .asc then 1 else -1)
       else 0) := by
  by_cases h : s = t
  · subst h
    simp [cmpValues, jsStrLt_irrefl]
  · have hne : Value.str s ≠ Value.str t := by simpa using h
    simp [cmpValues, hne, isNullish, valueToString]

theorem isNumV_exists {v : Value} (h : isNumV v = true) : ∃ n, v = .num n := by
  cases v with
  | num n => exact ⟨n, rfl⟩
  | str s => simp [isNumV] at h
  | null => simp [isNumV] at h
  | undefV => simp [isNumV] at h

theorem isStrV_exists {v : Value} (h : isStrV v = true) : ∃ s, v = .str s := by
  cases v with
  | str s => exact ⟨s, rfl⟩
  | num n => simp [isStrV] at h
  | null => simp [isStrV] at h
  | undefV => simp [isStrV] at h

theorem cmpValues_skew_num (a b : Value) (ha : isNumV a = true) (hb : isNumV b = true) :
    cmpValues .asc a b = -(cmpValues .asc b a) := by
  obtain ⟨x, rfl⟩ := isNumV_exists ha
  obtain ⟨y, rfl⟩ := isNumV_exists hb
  rw [cmpValues_num, cmpValues_num]
  simp

theorem cmpValues_flip_num (a b : Value) (ha : isNumV a = true) (hb : isNumV b = true) :
    cmpValues .desc a b = -(cmpValues .asc a b) := by
  obtain ⟨x, rfl⟩ := isNumV_exists ha
  obtain ⟨y, rfl⟩ := isNumV_exists hb
  rw [cmpValues_num, cmpValues_num]
  simp

theorem cmpValues_trans_num (a b d : Value) (ha : isNumV a = true) (hb : isNumV b = true)
    (hd : isNumV d = true) (h1 : cmpValues .asc a b ≤ 0) (h2 : cmpValues .asc b d ≤ 0) :
    cmpValues .asc a d ≤ 0 := by
  obtain ⟨x, rfl⟩ := isNumV_exists ha
  obtain ⟨y, rfl⟩ := isNumV_exists hb
  obtain ⟨z, rfl⟩ := isNumV_exists hd
  rw [cmpValues_num] at h1 h2 ⊢
  simp at h1 h2 ⊢
  omega

theorem cmpValues_skew_str (a b : Value) (ha : isStrV a = true) (hb : isStrV b = true) :
    cmpValues .asc a b = -(cmpValues .asc b a) := by
  obtain ⟨s, rfl⟩ := isStrV_exists ha
  obtain ⟨t, rfl⟩ := isStrV_exists hb
  rw [cmpValues_str, cmpValues_str]
  by_cases h1 : jsStrLt (jsToLower s) (jsToLower t)
  · simp [h1, jsStrLt_asymm _ _ h1]
  · by_cases h2 : jsStrLt (jsToLower t) (jsToLower s)
    · simp [h1, h2]
    · simp [h1, h2]

theorem cmpValues_flip_str (a b : Value) (ha : isStrV a = true) (hb : isStrV b = true) :
    cmpValues .desc a b = -(cmpValues .asc a b) := by
  obtain ⟨s, rfl⟩ := isStrV_exists ha
  obtain ⟨t, rfl⟩ := isStrV_exists hb
  rw [cmpValues_str, cmpValues_str]
  by_cases h1 : jsStrLt (jsToLower s) (jsToLower t)
  · simp [h1]
  · by_cases h2 : jsStrLt (jsToLower t) (jsToLower s)
    · simp [h1, h2]
    · simp [h1, h2]

theorem cmpValues_asc_str_nonpos (s t : String) :
    cmpValues .asc (.str s) (.str t) ≤ 0 ↔ jsStrLt (jsToLower t) (jsToLower s) = false := by
  rw [cmpValues_str]
  by_cases h1 : jsStrLt (jsToLower s) (jsToLower t)
  · simp [h1, jsStrLt_asymm _ _ h1]
  · by_cases h2 : jsStrLt (jsToLower t) (jsToLower s)
    · simp [h1, h2]
    · simp [h1, h2]

theorem cmpValues_trans_str (a b d : Value) (ha : isStrV a = true) (hb : isStrV b = true)
    (hd : isStrV d = true) (h1 : cmpValues .asc a b ≤ 0) (h2 : cmpValues .asc b d ≤ 0) :
    cmpValues .asc a d ≤ 0 := by
  obtain ⟨s, rfl⟩ := isStrV_exists ha
  obtain ⟨t, rfl⟩ := isStrV_exists hb
  obtain ⟨u, rfl⟩ := isStrV_exists hd
  rw [cmpValues_asc_str_nonpos] at h1 h2 ⊢
  exact jsStrLt_le_trans _ _ _ h1 h2

theorem rowCompare_null_pos (dir : Direction) (key : String) (a b : RowObj)
    (ha : isNullish (getVal a.fields key) = true)
    (hb : isNullish (getVal b.fields key) = false) : 0 < rowCompare dir key a b := by
  unfold rowCompare
  have hne : getVal a.fields key ≠ getVal b.fields key := by
    intro e; rw [e, hb] at ha; simp at ha
  simp [cmpValues, hne, ha]

theorem rowCompare_null_nonpos (dir : Direction) (key : String) (a b : RowObj)
    (ha : isNullish (getVal a.fields key) = false)
    (hb : isNullish (getVal b.fields key) = true) : rowCompare dir key a b ≤ 0 := by
  unfold rowCompare
  have hne : getVal a.fields key ≠ getVal b.fields key := by
    intro e; rw [e, hb] at ha; simp at ha
  have hvb : getVal b.fields key ≠ getVal a.fields key := fun e => hne e.symm
  simp only [cmpValues, hne, if_neg hne, ha, hb]
  simp

theorem getProcessedRows_sortOnly (key : String) (dir : Direction) (rows : List RowObj) :
    getProcessedRows "" (some (key, dir)) rows = jsSortBy (rowCompare dir key) rows := by
  simp [getProcessedRows]

theorem rowCompare_skew_num (key : String) (a b : RowObj)
    (ha : isNumV (getVal a.fields key) = true) (hb : isNumV (getVal b.fields key) = true) :
    rowCompare .asc key a b = -(rowCompare .asc key b a) :=
  cmpValues_skew_num _ _ ha hb

theorem rowCompare_flip_num (key : String) (a b : RowObj)
    (ha : isNumV (getVal a.fields key) = true) (hb : isNumV (getVal b.fields key) = true) :
    rowCompare .desc key a b = -(rowCompare .asc key a b) :=
  cmpValues_flip_num _ _ ha hb

theorem rowCompare_trans_num (key : String) (a b d : RowObj)
    (ha : isNumV (getVal a.fields key) = true) (hb : isNumV (getVal b.fields key) = true)
    (hd : isNumV (getVal d.fields key) = true) (h1 : rowCompare .asc key a b ≤ 0)
    (h2 : rowCompare .asc key b d ≤ 0) : rowCompare .asc key a d ≤ 0 :=
  cmpValues_trans_num _ _ _ ha hb hd h1 h2

theorem rowCompare_skew_str (key : String) (a b : RowObj)
    (ha : isStrV (getVal a.fields key) = true) (hb : isStrV (getVal b.fields key) = true) :
    rowCompare .asc key a b = -(rowCompare .asc key b a) :=
  cmpValues_skew_str _ _ ha hb

theorem rowCompare_flip_str (key : String) (a b : RowObj)
    (ha : isStrV (getVal a.fields key) = true) (hb : isStrV (getVal b.fields key) = true) :
    rowCompare .desc key a b = -(rowCompare .asc key a b) :=
  cmpValues_flip_str _ _ ha hb

theorem rowCompare_trans_str (key : String) (a b d : RowObj)
    (ha : isStrV (getVal a.fields key) = true) (hb : isStrV (getVal b.fields key) = true)
    (hd : isStrV (getVal d.fields key) = true) (h1 : rowCompare .asc key a b ≤ 0)
    (h2 : rowCompare .asc key b d ≤ 0) : rowCompare .asc key a d ≤ 0 :=
  cmpValues_trans_str _ _ _ ha hb hd h1 h2

/-- Claim C4 (amended): for every table and sort key, rows whose sort-key
value is null or absent appear after all defined-valued rows in both sort
directions; and when the sort-key values are homogeneous (all numbers, or
all strings) and no two rows' values compare equal under the ascending
comparator, sorting descending yields the exact reverse of sorting
ascending. -/
theorem sortDirection_claims (rows : List RowObj) (key : String) :
    ((getProcessedRows "" (some (key, .asc)) rows).Pairwise
      (fun a b => isNullish (getVal a.fields key) = true → isNullish (getVal b.fields key) = true))
  ∧ ((getProcessedRows "" (some (key, .desc)) rows).Pairwise
      (fun a b => isNullish (getVal a.fields key) = true → isNullish (getVal b.fields key) = true))
  ∧ (((∀ r ∈ rows, isNumV (getVal r.fields key) = true)
        ∨ (∀ r ∈ rows, isStrV (getVal r.fields key) = true)) →
      rows.Pairwise (fun a b => rowCompare .asc key a b ≠ 0) →
      getProcessedRows "" (some (key, .desc)) rows
        = (getProcessedRows "" (some (key, .asc)) rows).reverse) := by
  refine ⟨?_, ?_, ?_⟩
  · rw [getProcessedRows_sortOnly]
    exact jsSortBy_pairwise_mono _ _
      (fun a b ha hb => rowCompare_null_pos .asc key a b ha hb)
      (fun a b ha hb => rowCompare_null_nonpos .asc key a b ha hb) rows
  · rw [getProcessedRows_sortOnly]
    exact jsSortBy_pairwise_mono _ _
      (fun a b ha hb => rowCompare_null_pos .desc key a b ha hb)
      (fun a b ha hb => rowCompare_null_nonpos .desc key a b ha hb) rows
  · intro hhom hdist
    rw [getProcessedRows_sortOnly, getProcessedRows_sortOnly]
    rcases hhom with hnum | hstr
    · exact jsSortBy_rev (rowCompare .asc key) (rowCompare .desc key)
        (fun r => isNumV (getVal r.fields key) = true) rows hnum
        (fun a b ha hb => rowCompare_skew_num key a b ha hb)
        (fun a b d ha hb hd => rowCompare_trans_num key a b d ha hb hd)
        (fun a b ha hb => rowCompare_flip_num key a b ha hb) hdist
    · exact jsSortBy_rev (rowCompare .asc key) (rowCompare .desc key)
        (fun r => isStrV (getVal r.fields key) = true) rows hstr
        (fun a b ha hb => rowCompare_skew_str key a b ha hb)
        (fun a b d ha hb hd => rowCompare_trans_str key a b d ha hb hd)
        (fun a b ha hb => rowCompare_flip_str key a b ha hb) hdist

/-- Claim C4, counterexample to the claim as stated: with two rows whose
sort-key values are equal defined strings, stability keeps both sorts in
the original order, which is not its own reverse; and with all-defined,
pairwise-distinct but mixed number/string values, the comparator is not
transitive and the descending order is again not the reverse of the
ascending one. -/
theorem sortDirection_counterexample :
    (getProcessedRows "" (some ("k", .desc))
        [⟨0, [("k", .str "1"), ("t", .str "p")]⟩, ⟨1, [("k", .str "1"), ("t", .str "q")]⟩]
      ≠ (getProcessedRows "" (some ("k", .asc))
        [⟨0, [("k", .str "1"), ("t", .str "p")]⟩, ⟨1, [("k", .str "1"), ("t", .str "q")]⟩]).reverse)
  ∧ (getProcessedRows "" (some ("k", .desc))
        [⟨0, [("k", .num 5)]⟩, ⟨1, [("k", .num 11)]⟩, ⟨2, [("k", .str "2")]⟩]
      ≠ (getProcessedRows "" (some ("k", .asc))
        [⟨0, [("k", .num 5)]⟩, ⟨1, [("k", .num 11)]⟩, ⟨2, [("k", .str "2")]⟩]).reverse) := by
  constructor
  · decide
  · decide

/-- Witness for the amended C4 at a concrete table: two rows with distinct
all-string values; descending is the reverse of ascending, and the null
placement conjuncts hold. -/
theorem sortDirection_claims_witness :
    getProcessedRows "" (some ("k", .desc)) [⟨0, [("k", .str "b")]⟩, ⟨1, [("k", .str "a")]⟩]
      = (getProcessedRows "" (some ("k", .asc))
          [⟨0, [("k", .str "b")]⟩, ⟨1, [("k", .str "a")]⟩]).reverse :=
  (sortDirection_claims [⟨0, [("k", .str "b")]⟩, ⟨1, [("k", .str "a")]⟩] "k").2.2
    (Or.inr (by decide)) (by decide)

/-! ## Pagination facts -/

theorem maxPage_bounds (T : Nat) (h : RECORDS_PER_PAGE + 5 < T) :
    2 ≤ (T - 5 + RECORDS_PER_PAGE - 1) / RECORDS_PER_PAGE
  ∧ ((T - 5 + RECORDS_PER_PAGE - 1) / RECORDS_PER_PAGE - 1) * RECORDS_PER_PAGE < T - 5
  ∧ T - 5 ≤ (T - 5 + RECORDS_PER_PAGE - 1) / RECORDS_PER_PAGE * RECORDS_PER_PAGE := by
  simp only [RECORDS_PER_PAGE] at *
  omega

theorem getPaginatedRows_eq_spec (rows : List RowObj) (reqPage : Nat) (hp : 1 ≤ reqPage) :
    (getPaginatedRows rows reqPage).rows = paginateSpec rows reqPage := by
  by_cases hT : rows.length ≤ RECORDS_PER_PAGE + 5
  · simp [getPaginatedRows, paginateSpec, hT]
  · have hT' : RECORDS_PER_PAGE + 5 < rows.length := Nat.lt_of_not_le hT
    obtain ⟨hM2, hlow, hhigh⟩ := maxPage_bounds rows.length hT'
    have h1 : 1 ≤ min reqPage ((rows.length - 5 + RECORDS_PER_PAGE - 1) / RECORDS_PER_PAGE) :=
      le_min hp (by omega)
    have hclamp : max 1 (min reqPage ((rows.length - 5 + RECORDS_PER_PAGE - 1) / RECORDS_PER_PAGE))
        = pageClamped rows.length reqPage := by
      unfold pageClamped
      omega
    have hstart : (max 1 (min reqPage ((rows.length - 5 + RECORDS_PER_PAGE - 1) / RECORDS_PER_PAGE)) - 1)
        * RECORDS_PER_PAGE = bodyStart rows.length reqPage := by
      unfold bodyStart
      rw [hclamp]
    have hend : min (max 1 (min reqPage ((rows.length - 5 + RECORDS_PER_PAGE - 1) / RECORDS_PER_PAGE))
          * RECORDS_PER_PAGE) (rows.length - 5) = bodyEnd rows.length reqPage := by
      unfold bodyEnd bodyStart
      rw [hclamp]
      have hpc : 1 ≤ pageClamped rows.length reqPage := by
        unfold pageClamped; omega
      have : (pageClamped rows.length reqPage - 1) * RECORDS_PER_PAGE + RECORDS_PER_PAGE
          = pageClamped rows.length reqPage * RECORDS_PER_PAGE := by
        simp only [RECORDS_PER_PAGE] at *
        omega
      rw [this]
    simp only [getPaginatedRows, paginateSpec, if_neg hT]
    rw [hstart, hend]

theorem hasGap_iff_not_contiguous (T reqPage : Nat) (hp : 1 ≤ reqPage)
    (hT : RECORDS_PER_PAGE + 5 < T) :
    hasGap T reqPage = true ↔ bodyEnd T reqPage ≠ T - 5 := by
  obtain ⟨hM2, hlow, hhigh⟩ := maxPage_bounds T hT
  have htp : totalPages T = (T - 5 + RECORDS_PER_PAGE - 1) / RECORDS_PER_PAGE := by
    simp only [totalPages, RECORDS_PER_PAGE, Nat.max_eq_left (Nat.zero_le (T - 5))]
    rw [if_neg (by simp only [RECORDS_PER_PAGE] at hM2; omega)]
  unfold hasGap bodyEnd bodyStart pageClamped
  rw [htp]
  simp only [Bool.and_eq_true, decide_eq_true_eq]
  simp only [RECORDS_PER_PAGE] at *
  omega

theorem displayIndicesStart_eq (rows : List RowObj) (reqPage : Nat)
    (hT : RECORDS_PER_PAGE + 5 < rows.length) :
    (getPaginatedRows rows reqPage).displayIndicesStart = bodyStart rows.length reqPage := by
  simp [getPaginatedRows, Nat.not_le.mpr hT]

theorem tail_display_number (T reqPage : Nat) (hp : 1 ≤ reqPage)
    (hT : RECORDS_PER_PAGE + 5 < T) (off : Nat) (hoff : off < 5) :
    displayIndex T reqPage (bodyStart T reqPage)
      ((bodyEnd T reqPage - bodyStart T reqPage) + off) = T - 5 + off + 1 := by
  obtain ⟨hM2, hlow, hhigh⟩ := maxPage_bounds T hT
  have hs5 : bodyStart T reqPage ≤ T - 5 := by
    unfold bodyStart pageClamped
    simp only [RECORDS_PER_PAGE] at *
    omega
  by_cases hg : hasGap T reqPage = true
  · have hne := (hasGap_iff_not_contiguous T reqPage hp hT).1 hg
    have hbody : bodyEnd T reqPage - bodyStart T reqPage = RECORDS_PER_PAGE := by
      have hlt : reqPage < (T - 5 + RECORDS_PER_PAGE - 1) / RECORDS_PER_PAGE := by
        by_contra hge
        apply hne
        unfold bodyEnd bodyStart pageClamped
        simp only [RECORDS_PER_PAGE] at *
        omega
      unfold bodyEnd bodyStart pageClamped
      simp only [RECORDS_PER_PAGE] at *
      omega
    rw [hbody]
    have hcond : (hasGap T reqPage
        && decide (RECORDS_PER_PAGE ≤ RECORDS_PER_PAGE + off)) = true := by
      rw [hg, Bool.true_and, decide_eq_true (Nat.le_add_right _ _)]
    unfold displayIndex
    rw [hcond, if_pos rfl]
    simp only [RECORDS_PER_PAGE]
    omega
  · have hgf : hasGap T reqPage = false := by
      cases hhg : hasGap T reqPage
      · rfl
      · exact absurd hhg hg
    have heq : bodyEnd T reqPage = T - 5 := by
      by_contra hne
      exact hg ((hasGap_iff_not_contiguous T reqPage hp hT).2 hne)
    have hcond : (hasGap T reqPage
        && decide (RECORDS_PER_PAGE ≤ (bodyEnd T reqPage - bodyStart T reqPage) + off)) = false := by
      rw [hgf, Bool.false_and]
    unfold displayIndex
    rw [hcond, if_neg Bool.false_ne_true]
    rw [heq]
    omega

/-! ## Remaining claim theorems -/

/-- Claim C5: the paginated rows equal the spec's clamped body-plus-pinned-
tail; below the 35-row threshold everything is shown with no gap; above it,
the gap marker appears exactly when body and tail are not contiguous, and
each tail row's displayed number is `total - 5 + offset + 1`. -/
theorem pagination_claims (rows : List RowObj) (reqPage : Nat) (hp : 1 ≤ reqPage) :
    (getPaginatedRows rows reqPage).rows = paginateSpec rows reqPage
  ∧ (rows.length ≤ RECORDS_PER_PAGE + 5 →
      (getPaginatedRows rows reqPage).rows = rows ∧ hasGap rows.length reqPage = false)
  ∧ (RECORDS_PER_PAGE + 5 < rows.length →
      (hasGap rows.length reqPage = true ↔ bodyEnd rows.length reqPage ≠ rows.length - 5)
    ∧ ∀ off, off < 5 →
        displayIndex rows.length reqPage (getPaginatedRows rows reqPage).displayIndicesStart
          ((bodyEnd rows.length reqPage - bodyStart rows.length reqPage) + off)
        = rows.length - 5 + off + 1) := by
  refine ⟨getPaginatedRows_eq_spec rows reqPage hp, ?_, ?_⟩
  · intro hle
    have h35 : ¬ (RECORDS_PER_PAGE + 5 < rows.length) := Nat.not_lt.mpr hle
    constructor
    · simp [getPaginatedRows, hle]
    · simp [hasGap, h35]
  · intro hgt
    refine ⟨hasGap_iff_not_contiguous _ _ hp hgt, ?_⟩
    intro off hoff
    rw [displayIndicesStart_eq rows reqPage hgt]
    exact tail_display_number rows.length reqPage hp hgt off hoff

/-- Witness for C5 on a 40-row table at page 1: the paginated rows match
the spec shape and the gap marker is shown. -/
theorem pagination_claims_witness :
    (getPaginatedRows rows40 1).rows = paginateSpec rows40 1
  ∧ hasGap rows40.length 1 = true := by
  have h := pagination_claims rows40 1 (by decide)
  exact ⟨h.1, ((h.2.2 (by decide)).1).mpr (by decide)⟩

theorem jsSplitList_ne_nil (sep : Char) (l : List Char) : jsSplitList sep l ≠ [] := by
  cases l with
  | nil => simp [jsSplitList]
  | cons c cs =>
    simp only [jsSplitList]
    cases h : jsSplitList sep cs with
    | nil => simp
    | cons g gs => by_cases hc : c = sep <;> simp [hc]

theorem jsSplit_ne_nil (s : String) (sep : Char) : jsSplit s sep ≠ [] := by
  unfold jsSplit
  simp [jsSplitList_ne_nil]

/-- Claim C2 (code bug): parsing the empty string does not raise the
"Empty file" error; it returns a table with a single empty header and no
rows, because `"".trim().split("\n")` is `[""]`, never the empty array —
the error branch is unreachable for every input. -/
theorem parseCSV_empty_input :
    parseCSV "" = .ok ⟨[""], []⟩ ∧ ∀ text, ∃ td, parseCSV text = .ok td := by
  constructor
  · rfl
  · intro text
    have hne : ¬ (jsSplit (jsTrim text) '\n').length = 0 := by
      intro hl
      exact jsSplit_ne_nil (jsTrim text) '\n' (List.length_eq_zero.mp hl)
    simp only [parseCSV, if_neg hne]
    exact ⟨_, rfl⟩

/-- Claim C8: the two concrete CSV parses from the spec's testable
properties: a 2x2 CSV yields the positional zip of headers and values, and
a short row fills the missing trailing field with the empty string. -/
theorem parseCSV_examples :
    parseCSV "a,b\n1,2\n3,4"
      = .ok ⟨["a","b"], [⟨0, [("a", .str "1"), ("b", .str "2")]⟩,
                         ⟨1, [("a", .str "3"), ("b", .str "4")]⟩]⟩
  ∧ parseCSV "a,b\n1" = .ok ⟨["a","b"], [⟨0, [("a", .str "1"), ("b", .str "")]⟩]⟩ :=
  ⟨rfl, rfl⟩

/-- Claim C1 (code bug): `handleRemoveColumn` of a column absent from the
table (so no row's content is affected) and `handleRenameHeader` of a key a
row does not have both rebuild every row as a fresh object; a row reference
taken before the edit then matches nothing, and `handleRemoveRowByRef`
deletes nothing instead of exactly that row. -/
theorem rowIdentity_not_preserved :
    (handleRemoveColumn 1 "c" ⟨["a","b"], [⟨0, [("a", .str "1"), ("b", .str "2")]⟩]⟩).headers
      = ["a","b"]
  ∧ (handleRemoveColumn 1 "c" ⟨["a","b"], [⟨0, [("a", .str "1"), ("b", .str "2")]⟩]⟩).rows.map
      RowObj.fields = [[("a", .str "1"), ("b", .str "2")]]
  ∧ handleRemoveRowByRef ⟨0, [("a", .str "1"), ("b", .str "2")]⟩
      (handleRemoveColumn 1 "c" ⟨["a","b"], [⟨0, [("a", .str "1"), ("b", .str "2")]⟩]⟩)
      = handleRemoveColumn 1 "c" ⟨["a","b"], [⟨0, [("a", .str "1"), ("b", .str "2")]⟩]⟩
  ∧ (handleRemoveRowByRef ⟨0, [("a", .str "1"), ("b", .str "2")]⟩
      (handleRemoveColumn 1 "c" ⟨["a","b"], [⟨0, [("a", .str "1"), ("b", .str "2")]⟩]⟩)).rows
      ≠ []
  ∧ handleRenameHeader 1 "a" "z" ⟨["a","b"], [⟨0, [("b", .str "2")]⟩]⟩
      = .updated ⟨["z","b"], [⟨1, [("b", .str "2")]⟩]⟩
  ∧ (handleRemoveRowByRef ⟨0, [("b", .str "2")]⟩
      ⟨["z","b"], [⟨1, [("b", .str "2")]⟩]⟩).rows = [⟨1, [("b", .str "2")]⟩] := by
  refine ⟨rfl, rfl, rfl, by decide, rfl, rfl⟩

/-- Claim C3, counterexample: a file named with extension `.csv` whose MIME
type contains "spreadsheet" is dispatched to the Excel path — the filename
extension does not take precedence over the MIME type. -/
theorem dispatch_counterexample :
    handleFileDispatch "a.csv" "application/vnd.openxmlformats-officedocument.spreadsheetml.sheet"
      = .excel
  ∧ handleFileDispatch "a.csv" "application/vnd.openxmlformats-officedocument.spreadsheetml.sheet"
      ≠ .csv := ⟨rfl, by decide⟩

/-- Claim C3 (amended): for a file with a nonempty MIME type, the `.xlsx`
and `.xls` extensions always select the Excel path; a `.csv` extension
selects the CSV path unless the MIME type contains "spreadsheet", which
overrides it to the Excel path; without a recognized extension, a MIME
containing "spreadsheet" selects Excel, an exact MIME "text/csv" selects
CSV, and anything else fails as unsupported. -/
theorem dispatch_amended (name ty : String) (hty : ty ≠ "") :
    (jsEndsWith name ".xlsx" = true ∨ jsEndsWith name ".xls" = true →
      handleFileDispatch name ty = .excel)
  ∧ (jsEndsWith name ".csv" = true → jsEndsWith name ".xlsx" = false →
      jsEndsWith name ".xls" = false →
      handleFileDispatch name ty
        = (if jsIncludes ty "spreadsheet" then ParsePath.excel else ParsePath.csv))
  ∧ (jsEndsWith name ".xlsx" = false → jsEndsWith name ".xls" = false →
      jsEndsWith name ".csv" = false →
      handleFileDispatch name ty
        = (if jsIncludes ty "spreadsheet" then ParsePath.excel
           else if ty = "text/csv" then ParsePath.csv else ParsePath.unsupported)) := by
  refine ⟨?_, ?_, ?_⟩
  · rintro (h | h) <;> simp [handleFileDispatch, h]
  · intro hcsv h1 h2
    by_cases hsp : jsIncludes ty "spreadsheet" = true
    · simp [handleFileDispatch, hcsv, h1, h2, hsp]
    · have hsp' : jsIncludes ty "spreadsheet" = false := by
        cases h : jsIncludes ty "spreadsheet"
        · rfl
        · exact absurd h hsp
      simp [handleFileDispatch, hcsv, h1, h2, hsp']
  · intro h1 h2 h3
    by_cases hsp : jsIncludes ty "spreadsheet" = true
    · simp [handleFileDispatch, h1, h2, h3, hsp, hty]
    · have hsp' : jsIncludes ty "spreadsheet" = false := by
        cases h : jsIncludes ty "spreadsheet"
        · rfl
        · exact absurd h hsp
      by_cases htc : ty = "text/csv"
      · simp [handleFileDispatch, h1, h2, h3, hsp', htc]
      · simp [handleFileDispatch, h1, h2, h3, hsp', htc, hty]

/-- Witness for the amended C3: an `.xlsx` file with a CSV MIME type goes
to the Excel path, and a `.csv` file with a plain-text MIME type goes to
the CSV path. -/
theorem dispatch_amended_witness :
    handleFileDispatch "a.xlsx" "text/csv" = .excel
  ∧ handleFileDispatch "b.csv" "text/plain" = .csv := by
  constructor
  · exact (dispatch_amended "a.xlsx" "text/csv" (by decide)).1 (Or.inl (by decide))
  · exact ((dispatch_amended "b.csv" "text/plain" (by decide)).2.1
      (by decide) (by decide) (by decide)).trans (by decide)

/-- Claim C6 (code bug): for a sheet whose bounding range starts at column
B (`range.s.c = 1`), `parseExcel` stores the last cell of each data row
under the key `"undefined"` (absolute-column indexing of `headers[col]`),
which is not among the headers: the produced table violates the key-subset
invariant. -/
theorem parseExcel_invariant_violation :
    parseExcel ⟨0, 1, 1, 2⟩ sheetColShift
      = .ok ⟨["h1","h2"], [⟨0, [("h2", .str "x"), ("undefined", .str "y")]⟩]⟩
  ∧ ¬ TableInv ⟨["h1","h2"], [⟨0, [("h2", .str "x"), ("undefined", .str "y")]⟩]⟩ :=
  ⟨rfl, by decide⟩

/-- Claim C10: in the filter, a null cell is coerced to the string "null"
and an explicitly-undefined cell to "undefined" before substring matching,
so those rows match the search terms "null" / "undefined" even though the
null cell displays as the empty string; a key absent from a row is not
searched at all (the row with no "a" key does not match "undefined"). -/
theorem filter_null_coercion :
    valueToString .null = "null"
  ∧ valueToString .undefV = "undefined"
  ∧ getProcessedRows "null" none
      [⟨0, [("a", Value.null), ("b", .str "hello")]⟩, ⟨1, [("a", Value.undefV)]⟩,
       ⟨2, [("b", .str "plain")]⟩]
      = [⟨0, [("a", Value.null), ("b", .str "hello")]⟩]
  ∧ getProcessedRows "undefined" none
      [⟨0, [("a", Value.null), ("b", .str "hello")]⟩, ⟨1, [("a", Value.undefV)]⟩,
       ⟨2, [("b", .str "plain")]⟩]
      = [⟨1, [("a", Value.undefV)]⟩]
  ∧ formatCellValue (fun _ => none) .null "a" = "" := by
  refine ⟨rfl, rfl, by decide, by decide, rfl⟩

/-- Claim C9: the formatter returns "" for null/undefined; in a date/time
column a string containing a month abbreviation passes through unchanged;
otherwise a string parsing successfully as a date renders in the fixed
en-US short form, and on parse failure (or in a non-date column) the
original string is returned unchanged — for every parse oracle, value and
header. -/
theorem formatCellValue_claims (parseDate : String → Option JsDate) (v : Value)
    (header s : String) (d : JsDate) :
    (v = .null ∨ v = .undefV → formatCellValue parseDate v header = "")
  ∧ (isDateColumn header = true → hasMonthName s = true →
      formatCellValue parseDate (.str s) header = s)
  ∧ (isDateColumn header = true → hasMonthName s = false → parseDate s = none →
      formatCellValue parseDate (.str s) header = s)
  ∧ (isDateColumn header = true → hasMonthName s = false → parseDate s = some d →
      formatCellValue parseDate (.str s) header = toLocaleDateStringEnUS d)
  ∧ (isDateColumn header = false → formatCellValue parseDate (.str s) header = s)
  ∧ (∀ n : Int, v = .num n → formatCellValue parseDate v header = toString n) := by
  refine ⟨?_, ?_, ?_, ?_, ?_, ?_⟩
  · rintro (rfl | rfl) <;> simp [formatCellValue]
  · intro hdc hm
    simp [formatCellValue, hdc, hm]
  · intro hdc hm hpd
    simp [formatCellValue, hdc, hm, hpd]
  · intro hdc hm hpd
    simp [formatCellValue, hdc, hm, hpd]
  · intro hdc
    simp [formatCellValue, hdc]
  · rintro n rfl
    simp [formatCellValue]

/-- Witness for C9 at a concrete oracle and inputs: a parseable date in a
date column renders as "Jan 5, 2024", and a month-abbreviated string passes
through. -/
theorem formatCellValue_claims_witness :
    formatCellValue pdWitness (.str "2024-01-05") "Start Date" = "Jan 5, 2024"
  ∧ formatCellValue pdWitness (.str "Jan 7, 2020") "Start Date" = "Jan 7, 2020" := by
  constructor
  · exact ((formatCellValue_claims pdWitness (.str "2024-01-05") "Start Date" "2024-01-05"
      ⟨2024, ⟨0, by omega⟩, 5⟩).2.2.2.1 (by decide) (by decide) (by decide)).trans (by decide)
  · exact (formatCellValue_claims pdWitness (.str "Jan 7, 2020") "Start Date" "Jan 7, 2020"
      ⟨2024, ⟨0, by omega⟩, 5⟩).2.1 (by decide) (by decide)

/-! ## Rename-header facts -/

theorem objSet_not_mem (r : List (String × Value)) (k : String) (v : Value)
    (h : k ∉ r.map Prod.fst) : objSet r k v = r ++ [(k, v)] := by
  unfold objSet
  rw [if_neg]
  intro hany
  rw [List.any_eq_true] at hany
  obtain ⟨kv, hkv, he⟩ := hany
  rw [beq_iff_eq] at he
  exact h (List.mem_map.mpr ⟨kv, hkv, he⟩)

theorem renameFields_foldl_keys (o n : String) :
    ∀ (fs acc : List (String × Value)),
      (fs.map (fun kv => if kv.1 = o then n else kv.1)).Nodup →
      (∀ x ∈ fs.map (fun kv => if kv.1 = o then n else kv.1), x ∉ acc.map Prod.fst) →
      (fs.foldl (fun a kv => objSet a (if kv.1 = o then n else kv.1) kv.2) acc).map Prod.fst
        = acc.map Prod.fst ++ fs.map (fun kv => if kv.1 = o then n else kv.1)
  | [], acc, _, _ => by simp
  | kv :: fs, acc, hnd, hdisj => by
    simp only [List.map_cons, List.nodup_cons] at hnd
    simp only [List.map_cons, List.foldl_cons]
    rw [objSet_not_mem acc _ kv.2
      (hdisj _ (by simp only [List.map_cons]; exact List.mem_cons_self _ _))]
    rw [renameFields_foldl_keys o n fs (acc ++ [((if kv.1 = o then n else kv.1), kv.2)])
      hnd.2 ?_]
    · simp
    · intro x hx
      simp only [List.map_append, List.map_cons, List.map_nil, List.mem_append,
        List.mem_singleton]
      rintro (h | h)
      · exact hdisj x (by simp only [List.map_cons]; exact List.mem_cons_of_mem _ hx) h
      · subst h
        exact hnd.1 hx

theorem renameFields_keys (o n : String) (fs : List (String × Value))
    (hnd : (fs.map Prod.fst).Nodup) (hn : n = o ∨ n ∉ fs.map Prod.fst) :
    (renameFields o n fs).map Prod.fst
      = (fs.map Prod.fst).map (fun k => if k = o then n else k) := by
  have hini : ∀ x ∈ fs.map Prod.fst, ∀ y ∈ fs.map Prod.fst,
      (if x = o then n else x) = (if y = o then n else y) → x = y := by
    intro x hx y hy hxy
    by_cases hxo : x = o
    · by_cases hyo : y = o
      · rw [hxo, hyo]
      · rw [if_pos hxo, if_neg hyo] at hxy
        rcases hn with h | h
        · exact absurd (hxy ▸ h ▸ rfl : y = o) hyo
        · exact absurd (hxy ▸ hy) h
    · by_cases hyo : y = o
      · rw [if_neg hxo, if_pos hyo] at hxy
        rcases hn with h | h
        · exact absurd (hxy ▸ h ▸ rfl : x = o).symm (fun e => hxo e.symm)
        · exact absurd (hxy ▸ hx) h
      · rw [if_neg hxo, if_neg hyo] at hxy
        exact hxy
  have hmm : fs.map (fun kv => if kv.1 = o then n else kv.1)
      = (fs.map Prod.fst).map (fun k => if k = o then n else k) := by
    rw [List.map_map]
    rfl
  have hrnd : (fs.map (fun kv => if kv.1 = o then n else kv.1)).Nodup := by
    rw [hmm]
    exact hnd.map_on hini
  unfold renameFields
  rw [renameFields_foldl_keys o n fs [] hrnd (by simp)]
  rw [List.map_nil, List.nil_append]
  exact hmm

/-- Claim C7, counterexample to the claim as stated: renaming to a
whitespace-only name aborts, but silently — no error is reported to the
user (only the duplicate-name branch shows an alert). -/
theorem renameHeader_counterexample :
    handleRenameHeader 10 "a" "  " ⟨["a"], [⟨0, [("a", .str "x")]⟩]⟩ = .cancelled
  ∧ reportsError (handleRenameHeader 10 "a" "  " ⟨["a"], [⟨0, [("a", .str "x")]⟩]⟩) = false :=
  ⟨rfl, rfl⟩

/-- Claim C7 (amended): rename aborts leaving the table unchanged when the
new name is empty/whitespace-only (silently, with no reported error) or
when it collides with a different existing header (reported via alert); on
success the header list is rewritten in place and every row's key `oldName`
becomes `newName` (keys shown for rows with duplicate-free keys not already
containing `newName`). -/
theorem renameHeader_amended (ctr : Nat) (o n : String) (t : TableData) :
    (jsTrim n = "" → handleRenameHeader ctr o n t = .cancelled)
  ∧ (jsTrim n ≠ "" → n ≠ o → t.headers.contains n = true →
      handleRenameHeader ctr o n t = .duplicateAlert)
  ∧ (jsTrim n ≠ "" → (n = o ∨ t.headers.contains n = false) →
      handleRenameHeader ctr o n t = .updated
        ⟨t.headers.map (fun h => if h = o then n else h),
         t.rows.enum.map (fun p => ⟨ctr + p.1, renameFields o n p.2.fields⟩)⟩)
  ∧ (∀ fs : List (String × Value), (fs.map Prod.fst).Nodup →
      (n = o ∨ n ∉ fs.map Prod.fst) →
      (renameFields o n fs).map Prod.fst
        = (fs.map Prod.fst).map (fun k => if k = o then n else k)) := by
  refine ⟨?_, ?_, ?_, fun fs hnd hn => renameFields_keys o n fs hnd hn⟩
  · intro h
    simp [handleRenameHeader, h]
  · intro h1 h2 h3
    have h3m : n ∈ t.headers := by simpa using h3
    simp [handleRenameHeader, h1, h2, h3m]
  · intro h1 h2
    have hcond : ¬ (n ≠ o ∧ t.headers.contains n = true) := by
      rcases h2 with h | h
      · rintro ⟨hne, -⟩
        exact hne h
      · rintro ⟨-, hc⟩
        rw [h] at hc
        exact Bool.false_ne_true hc
    simp only [handleRenameHeader, if_neg h1]
    rw [if_neg hcond]

/-- Witness for the amended C7: a successful rename on a concrete table
rewrites the header in place and the row key, and a duplicate rename
reports the alert. -/
theorem renameHeader_amended_witness :
    handleRenameHeader 5 "a" "c" ⟨["a","b"], [⟨0, [("a", .str "1"), ("b", .str "2")]⟩]⟩
      = .updated ⟨["c","b"], [⟨5, [("c", .str "1"), ("b", .str "2")]⟩]⟩
  ∧ handleRenameHeader 5 "a" "b" ⟨["a","b"], [⟨0, [("a", .str "1"), ("b", .str "2")]⟩]⟩
      = .duplicateAlert := by
  constructor
  · exact ((renameHeader_amended 5 "a" "c"
      ⟨["a","b"], [⟨0, [("a", .str "1"), ("b", .str "2")]⟩]⟩).2.2.1
      (by decide) (Or.inr (by decide))).trans (by decide)
  · exact (renameHeader_amended 5 "a" "b"
      ⟨["a","b"], [⟨0, [("a", .str "1"), ("b", .str "2")]⟩]⟩).2.1
      (by decide) (by decide) (by decide)
